import Mathlib

/-!
Shallow embedding of the scheduling core of `app.py` (community-channel-99):
the duration resolver (`get_duration`), the directory scan
(`get_channel_files`), the seeded stable shuffle (`stable_shuffle`), the
playlist builder (`build_playlist`) and the schedule engine
(`get_now_playing`).

Modelling conventions:
* Python floats (durations, wall-clock times) are modelled as exact
  rationals `ℚ`; Python's `int(x)` truncation toward zero is `truncQ`.
* Python's `%` on integers is floored modulo, which is `Int.fmod`; the
  `ZeroDivisionError` raised by `elapsed %= int(total)` when `int(total)`
  is zero is modelled by `get_now_playing` returning `none`.
* External collaborators that live outside the repository are passed in as
  parameters: the ffprobe invocation becomes an `Option ℚ` (parsed number
  or failure), the filesystem becomes an `Option (List String)` directory
  listing (`none` = folder missing), the MD5-seeded Mersenne Twister
  behind `random.Random(int(md5(seed),16))` becomes a stream
  `String → Nat → Nat` of raw generator outputs (a pure function of the
  seed, as in CPython), and the unseeded `random.randint`/`random.sample`
  calls of the filler step become a stream `Nat → Nat × List String` of
  (count, chosen clips) outcomes, one per main entry.
-/

/-- Python `int(q)`: truncation toward zero. -/
def truncQ (q : ℚ) : ℤ := if 0 ≤ q then ⌊q⌋ else ⌈q⌉

/-- `START_TIME`: `datetime(2025, 1, 1, tzinfo=timezone.utc).timestamp()`. -/
def START_TIME : ℚ := 1735689600

/-- `VALID_EXTS = (".mp4", ".m4v", ".mov", ".avi", ".mkv")`. -/
def VALID_EXTS : List String := [".mp4", ".m4v", ".mov", ".avi", ".mkv"]

/-- Python `str.lower()`: per-code-point lowercasing. -/
def strLower (s : String) : String := ⟨s.data.map Char.toLower⟩

/-- Python `str.endswith(suffix)`: code-point-sequence suffix test. -/
def strEndsWith (s suf : String) : Bool := List.isSuffixOf suf.data s.data

/-- Python `str.strip()`: drop whitespace from both ends. -/
def strTrim (s : String) : String :=
  ⟨((s.data.dropWhile (fun c => c.isWhitespace)).reverse.dropWhile
      (fun c => c.isWhitespace)).reverse⟩

/-- `f.lower().endswith(VALID_EXTS)`. -/
def hasValidExt (f : String) : Bool :=
  VALID_EXTS.any (fun e => strEndsWith (strLower f) e)

/-- `get_duration(filepath)`: the ffprobe subprocess plus `float(...)` parse is
modelled as `probe : Option ℚ` (`some v` = the probe output parsed as the
number `v`; `none` = the tool is missing, errors out, or its output does not
parse).  On any failure the `except` branch returns the fallback `22 * 60`
seconds; the function is total, so it never raises. -/
def get_duration (probe : Option ℚ) : ℚ :=
  match probe with
  | some v => v
  | none => 22 * 60

/-- Python `os.path.join(a, b)` for a relative second component. -/
def pathJoin (a b : String) : String := a ++ "/" ++ b

/-- Python `sorted` on strings: stable ascending lexicographic sort. -/
def sortStrings (l : List String) : List String := l.mergeSort (fun a b => a ≤ b)

/-- `get_channel_files(channel)`: the filesystem is passed as
`dir : Option (List String)` (`none` = `os.path.exists(path)` is false,
`some entries` = `os.listdir(path)`).  Mirrors
`[os.path.join(path, f.strip()) for f in sorted(os.listdir(path)) if f.lower().endswith(VALID_EXTS)]`. -/
def get_channel_files (dir : Option (List String)) (path : String) : List String :=
  match dir with
  | none => []
  | some entries =>
      ((sortStrings entries).filter (fun f => hasValidExt f)).map
        (fun f => pathJoin path (strTrim f))

/-- Swap the elements at positions `i` and `j` (no-op when out of range). -/
def swapNth {α : Type _} (l : List α) (i j : Nat) : List α :=
  match l[i]?, l[j]? with
  | some a, some b => (l.set i b).set j a
  | _, _ => l

/-- The loop of CPython's `random.shuffle`:
`for i in reversed(range(1, len(x))): j = randbelow(i+1); swap x[i], x[j]`.
`g i` is the raw generator output consumed at loop index `i`; `randbelow (i+1)`
is modelled as `g i % (i+1)`, which ranges over `[0, i+1)`. -/
def fyGo {α : Type _} (g : Nat → Nat) : Nat → List α → List α
  | 0, l => l
  | i + 1, l => fyGo g i (swapNth l (i + 1) (g (i + 1) % (i + 2)))

/-- `rng.shuffle(shuffled)` on a copy of the input list. -/
def fisherYates {α : Type _} (g : Nat → Nat) (l : List α) : List α :=
  fyGo g (l.length - 1) l

/-- `stable_shuffle(files, seed)`: `seedGen seed` is the output stream of
`random.Random(int(hashlib.md5(seed.encode()).hexdigest(), 16))` — a pure
function of the seed string, as in CPython, passed in as a parameter since
MD5 and the Mersenne Twister live outside the repository. -/
def stable_shuffle (seedGen : String → Nat → Nat) (files : List String)
    (seed : String) : List String :=
  fisherYates (seedGen seed) files

/-- The commercials pool of `build_playlist`: `media/commercials` is scanned
(unsorted `os.listdir` order, no `strip`), filtered by extension, joined. -/
def commercialPool (dir : Option (List String)) : List String :=
  match dir with
  | none => []
  | some entries =>
      (entries.filter (fun f => hasValidExt f)).map
        (fun f => pathJoin "media/commercials" f)

/-- Steps 1-2 of `build_playlist`: order the scanned files, either by the
seeded stable shuffle (rotation `"random"`) or by `sorted`. -/
structure Channel where
  id : String
  rotation : Option String
  commercials : Option Bool

/-- The ordered main-file list of `build_playlist`. -/
def orderedFiles (seedGen : String → Nat → Nat) (ch : Channel)
    (scanned : List String) : List String :=
  if ch.rotation = some "random" then stable_shuffle seedGen scanned ch.id
  else sortStrings scanned

/-- Step 4 of `build_playlist`: `for ep in files: append ep; if commercials:
append random.sample(commercials, k=min(random.randint(0,2), len(commercials)))`.
`rnd k` is the outcome of the unseeded random draws for the k-th main entry:
the `randint(0, 2)` value paired with the sampled clips. -/
def interleave (commercials : List String) : List String → (Nat → Nat × List String) → List String
  | [], _ => []
  | ep :: rest, rnd =>
      ep :: ((if commercials.isEmpty then [] else (rnd 0).2) ++
        interleave commercials rest (fun n => rnd (n + 1)))

/-- A possible outcome of `random.randint(0, 2)` followed by
`random.sample(commercials, k=min(num_ads, len(commercials)))`: the count is
at most 2, the sample's size is `min count |pool|`, and it is drawn without
replacement from the pool. -/
def ValidChoice (pool : List String) (c : Nat × List String) : Prop :=
  c.1 ≤ 2 ∧ c.2.length = min c.1 pool.length ∧ c.2.Nodup ∧ ∀ a ∈ c.2, a ∈ pool

/-- `build_playlist(channel)`: scanned main files and the commercials folder
listing are parameters (filesystem), as are the two random sources. -/
def build_playlist (seedGen : String → Nat → Nat)
    (commercialsDir : Option (List String)) (rnd : Nat → Nat × List String)
    (ch : Channel) (scanned : List String) : List String :=
  let files := orderedFiles seedGen ch scanned
  if ch.commercials.getD true then
    interleave (commercialPool commercialsDir) files rnd
  else files

/-- The walk of `get_now_playing` (lines 169-199): scan the remaining files
`rest` (whose first element has global index `i` in `files`), subtracting
durations until `offset < d`; on a hit return
`(now_file, int(offset), next_file, t + (d - offset))`, where the fourth
component is the wall-clock instant `time.time() + time_until_next` that the
source formats as a local time string.  Falling off the end returns
`(files[0], 0, files[0], None)`. -/
def walkAux (files : List String) (dur : String → ℚ) (t : ℚ) :
    List String → Nat → ℚ → Option String × ℤ × Option String × Option ℚ
  | [], _, _ => (files.head?, 0, files.head?, none)
  | f :: rest, i, offset =>
      if offset < dur f then
        (some f, truncQ offset,
          (if 1 < files.length then files[(i + 1) % files.length]? else some f),
          some (t + (dur f - offset)))
      else walkAux files dur t rest (i + 1) (offset - dur f)

/-- `get_now_playing(channel)` at query instant `t` (the value of
`time.time()`), with the per-file duration resolution passed in as
`dur : String → ℚ` (the composite of `get_duration` with the probe).
`none` models the `ZeroDivisionError` raised by `elapsed %= int(total)`
when `int(total) == 0`; `some (none, 0, none, none)` is the
nothing-playing tuple `(None, 0, None, None)` of an empty playlist. -/
def get_now_playing (files : List String) (dur : String → ℚ) (t : ℚ) :
    Option (Option String × ℤ × Option String × Option ℚ) :=
  if files = [] then some (none, 0, none, none)
  else
    let total := (files.map dur).sum
    if truncQ total = 0 then none
    else
      let elapsed : ℤ := (truncQ (t - START_TIME)).fmod (truncQ total)
      some (walkAux files dur t files 0 (elapsed : ℚ))

/-- Sum of the durations of the playlist entries strictly before index `i`. -/
def priorSum (ds : List ℚ) (i : Nat) : ℚ := (ds.take i).sum

/-- Real-valued floored modulo, the `mod` of the specification's
`elapsed = (currentTime - ReferenceEpoch) mod total`. -/
def qmod (a b : ℚ) : ℚ := a - b * ⌊a / b⌋

/-- Index `i` is the playlist slot whose cumulative-duration window contains
the elapsed position `e`. -/
def currentWindow (ds : List ℚ) (e : ℚ) (i : Nat) : Prop :=
  priorSum ds i ≤ e ∧ e < priorSum ds i + ds.getD i 0

/-- Two `get_now_playing` results agree on current file, offset and next file
(the components the periodicity property compares; the next-start instant is
excluded). -/
def sameShow :
    Option (Option String × ℤ × Option String × Option ℚ) →
    Option (Option String × ℤ × Option String × Option ℚ) → Prop
  | some (f, off, nf, _), some (f', off', nf', _) => f = f' ∧ off = off' ∧ nf = nf'
  | none, none => True
  | _, _ => False

/-- The fixed two-file example playlist: A runs 600 s, B runs 900 s. -/
def durAB : String → ℚ := fun f => if f = "A" then 600 else 900

/-- Fractional-duration playlist used to exhibit the truncation behaviour of
the schedule engine: file "a" runs 1.5 s, anything else 2 s. -/
def cexDur : String → ℚ := fun f => if f = "a" then 3/2 else 2

/-- The exactness property of the specification, stated with the spec's own
`elapsed = (currentTime − ReferenceEpoch) mod total` over the reals: some
playlist slot `i` is reported current, is the unique slot whose
cumulative-duration window contains `elapsed`, its offset lies in
`[0, duration(current))`, and prior durations plus offset equal `elapsed`. -/
def claimNowExact (files : List String) (dur : String → ℚ) (t : ℚ) : Prop :=
  ∃ i f off nxt ns,
    files[i]? = some f ∧
    get_now_playing files dur t = some (some f, off, nxt, ns) ∧
    0 ≤ off ∧ (off : ℚ) < dur f ∧
    priorSum (files.map dur) i + (off : ℚ) =
      qmod (t - START_TIME) ((files.map dur).sum) ∧
    ∀ j, currentWindow (files.map dur)
      (qmod (t - START_TIME) ((files.map dur).sum)) j → j = i

/-! Permutation facts for the Fisher-Yates swap loop. -/

theorem set_perm_cons_eraseIdx {α : Type _} :
    ∀ (l : List α) (k : Nat) (v w : α), l[k]? = some w →
      (l.set k v).Perm (v :: l.eraseIdx k)
  | [], k, v, w, h => by simp at h
  | x :: xs, 0, v, w, h => by simp [List.set, List.eraseIdx]
  | x :: xs, k + 1, v, w, h => by
    simp only [List.getElem?_cons_succ] at h
    simpa [List.set, List.eraseIdx] using
      ((set_perm_cons_eraseIdx xs k v w h).cons x).trans (List.Perm.swap v x _)

theorem perm_cons_eraseIdx_self {α : Type _} :
    ∀ (l : List α) (k : Nat) (w : α), l[k]? = some w →
      l.Perm (w :: l.eraseIdx k)
  | [], k, w, h => by simp at h
  | x :: xs, 0, w, h => by
    simp only [List.getElem?_cons_zero, Option.some.injEq] at h
    subst h; simp [List.eraseIdx]
  | x :: xs, k + 1, w, h => by
    simp only [List.getElem?_cons_succ] at h
    simpa [List.eraseIdx] using
      ((perm_cons_eraseIdx_self xs k w h).cons x).trans (List.Perm.swap w x _)

theorem set_set_perm {α : Type _} :
    ∀ (l : List α) (i j : Nat) (a b : α), l[i]? = some a → l[j]? = some b →
      ((l.set i b).set j a).Perm l
  | [], i, j, a, b, ha, hb => by simp at ha
  | x :: xs, 0, 0, a, b, ha, hb => by
    simp only [List.getElem?_cons_zero, Option.some.injEq] at ha hb
    subst ha; subst hb; simp [List.set]
  | x :: xs, 0, j + 1, a, b, ha, hb => by
    simp only [List.getElem?_cons_zero, Option.some.injEq] at ha
    simp only [List.getElem?_cons_succ] at hb
    subst ha
    have h1 := (set_perm_cons_eraseIdx xs j x b hb).cons b
    have h3 := ((perm_cons_eraseIdx_self xs j b hb).symm).cons x
    simp only [List.set]
    exact (h1.trans (List.Perm.swap x b _)).trans h3
  | x :: xs, i + 1, 0, a, b, ha, hb => by
    simp only [List.getElem?_cons_zero, Option.some.injEq] at hb
    simp only [List.getElem?_cons_succ] at ha
    subst hb
    have h1 := (set_perm_cons_eraseIdx xs i x a ha).cons a
    have h3 := ((perm_cons_eraseIdx_self xs i a ha).symm).cons x
    simp only [List.set]
    exact (h1.trans (List.Perm.swap x a _)).trans h3
  | x :: xs, i + 1, j + 1, a, b, ha, hb => by
    simp only [List.getElem?_cons_succ] at ha hb
    simpa [List.set] using (set_set_perm xs i j a b ha hb).cons x

theorem swapNth_perm {α : Type _} (l : List α) (i j : Nat) :
    (swapNth l i j).Perm l := by
  unfold swapNth
  rcases ha : l[i]? with _ | a <;> rcases hb : l[j]? with _ | b <;>
    simp [ha, hb]
  exact set_set_perm l i j a b ha hb

theorem fyGo_perm {α : Type _} (g : Nat → Nat) :
    ∀ (i : Nat) (l : List α), (fyGo g i l).Perm l
  | 0, l => List.Perm.refl l
  | i + 1, l =>
    (fyGo_perm g i _).trans (swapNth_perm l (i + 1) (g (i + 1) % (i + 2)))

theorem fisherYates_perm {α : Type _} (g : Nat → Nat) (l : List α) :
    (fisherYates g l).Perm l := fyGo_perm g (l.length - 1) l

theorem stable_shuffle_perm (seedGen : String → Nat → Nat) (files : List String)
    (seed : String) : (stable_shuffle seedGen files seed).Perm files :=
  fisherYates_perm (seedGen seed) files

theorem priorSum_zero (ds : List ℚ) : priorSum ds 0 = 0 := rfl

theorem priorSum_succ (ds : List ℚ) (j : Nat) :
    priorSum ds (j + 1) = priorSum ds j + ds.getD j 0 := by
  unfold priorSum
  rw [List.take_succ, List.sum_append, List.getD_eq_getElem?_getD]
  rcases h : ds[j]? with _ | d <;> simp [h]

theorem priorSum_cons (d : ℚ) (ds : List ℚ) (j : Nat) :
    priorSum (d :: ds) (j + 1) = d + priorSum ds j := by
  unfold priorSum
  simp [List.take_succ_cons]

theorem priorSum_mono (ds : List ℚ) (h : ∀ d ∈ ds, 0 ≤ d) :
    Monotone (priorSum ds) := by
  apply monotone_nat_of_le_succ
  intro j
  rw [priorSum_succ]
  have : 0 ≤ ds.getD j 0 := by
    rw [List.getD_eq_getElem?_getD]
    rcases hj : ds[j]? with _ | d
    · simp
    · simpa using h d (List.getElem?_mem hj)
  linarith

theorem currentWindow_unique (ds : List ℚ) (h : ∀ d ∈ ds, 0 ≤ d) (e : ℚ)
    (j k : Nat) (hj : currentWindow ds e j) (hk : currentWindow ds e k) :
    j = k := by
  rcases lt_trichotomy j k with hlt | heq | hgt
  · exfalso
    have h1 : e < priorSum ds (j + 1) := by
      rw [priorSum_succ]; exact hj.2
    have h2 : priorSum ds (j + 1) ≤ priorSum ds k := priorSum_mono ds h hlt
    linarith [hk.1]
  · exact heq
  · exfalso
    have h1 : e < priorSum ds (k + 1) := by
      rw [priorSum_succ]; exact hk.2
    have h2 : priorSum ds (k + 1) ≤ priorSum ds j := priorSum_mono ds h hgt
    linarith [hj.1]

theorem walkAux_spec (files : List String) (dur : String → ℚ) (t : ℚ) :
    ∀ (rest : List String) (k : Nat) (off : ℚ), 0 ≤ off →
      off < ((rest.map dur)).sum →
      ∃ j f, rest[j]? = some f ∧
        priorSum (rest.map dur) j ≤ off ∧
        off < priorSum (rest.map dur) j + dur f ∧
        walkAux files dur t rest k off =
          (some f, ⌊off - priorSum (rest.map dur) j⌋,
           (if 1 < files.length then files[(k + j + 1) % files.length]?
            else some f),
           some (t + (dur f - (off - priorSum (rest.map dur) j))))
  | [], k, off, h0, hlt => by
    exfalso
    simp only [List.map_nil, List.sum_nil] at hlt
    linarith
  | f :: rs, k, off, h0, hlt => by
    by_cases hc : off < dur f
    · refine ⟨0, f, by simp, ?_, ?_, ?_⟩
      · simpa [priorSum_zero] using h0
      · simpa [priorSum_zero] using hc
      · simp only [walkAux, if_pos hc, priorSum_zero, sub_zero]
        have : truncQ off = ⌊off⌋ := if_pos h0
        rw [this, Nat.add_zero]
    · push_neg at hc
      have h0' : 0 ≤ off - dur f := by linarith
      have hlt' : off - dur f < (rs.map dur).sum := by
        simp only [List.map_cons, List.sum_cons] at hlt
        linarith
      obtain ⟨j, g, hg, hw1, hw2, heq⟩ :=
        walkAux_spec files dur t rs (k + 1) (off - dur f) h0' hlt'
      refine ⟨j + 1, g, by simpa using hg, ?_, ?_, ?_⟩
      · rw [List.map_cons, priorSum_cons]; linarith
      · rw [List.map_cons, priorSum_cons]; linarith
      · have hnl : ¬ off < dur f := not_lt.mpr hc
        simp only [walkAux, if_neg hnl]
        rw [heq, List.map_cons, priorSum_cons]
        have harith : off - dur f - priorSum (rs.map dur) j =
            off - (dur f + priorSum (rs.map dur) j) := by ring
        rw [harith]
        have hidx : k + 1 + j + 1 = k + (j + 1) + 1 := by omega
        rw [hidx]

theorem natSum_of_mem (l : List ℚ) (h : ∀ x ∈ l, ∃ n : ℕ, x = (n : ℚ)) :
    ∃ N : ℕ, l.sum = (N : ℚ) := by
  induction l with
  | nil => exact ⟨0, by simp⟩
  | cons x xs ih =>
    obtain ⟨n, hn⟩ := h x (by simp)
    obtain ⟨N, hN⟩ := ih (fun y hy => h y (by simp [hy]))
    exact ⟨n + N, by simp [hn, hN]⟩

/-- Claim C2 (amended): for a non-empty playlist whose durations are whole
numbers of seconds with positive total, `get_now_playing` reports exactly one
current slot, its offset satisfies `0 ≤ offset < duration(current)`, and the
durations of the slots strictly before it plus the offset equal
`elapsed = int(t - START_TIME) mod int(total)` — the code's truncated elapsed
position, which is what forces the amendment. -/
theorem nowPlaying_exact (files : List String) (dur : String → ℚ) (t : ℚ)
    (hne : files ≠ [])
    (hint : ∀ f ∈ files, ∃ n : ℕ, dur f = (n : ℚ))
    (hpos : 0 < (files.map dur).sum) :
    ∃ i f off nxt ns,
      files[i]? = some f ∧
      get_now_playing files dur t = some (some f, off, nxt, ns) ∧
      0 ≤ off ∧ (off : ℚ) < dur f ∧
      priorSum (files.map dur) i + (off : ℚ) =
        (((truncQ (t - START_TIME)).fmod (truncQ ((files.map dur).sum)) : ℤ) : ℚ) ∧
      ∀ j, currentWindow (files.map dur)
        (((truncQ (t - START_TIME)).fmod (truncQ ((files.map dur).sum)) : ℤ) : ℚ) j →
        j = i := by
  have hmem : ∀ x ∈ files.map dur, ∃ n : ℕ, x = (n : ℚ) := by
    intro x hx
    obtain ⟨f, hf, rfl⟩ := List.mem_map.mp hx
    exact hint f hf
  obtain ⟨N, hN⟩ := natSum_of_mem (files.map dur) hmem
  have hN0 : 0 < N := by
    by_contra h
    push_neg at h
    interval_cases N
    rw [hN] at hpos
    norm_num at hpos
  have htr : truncQ ((files.map dur).sum) = (N : ℤ) := by
    rw [hN]
    unfold truncQ
    rw [if_pos (by positivity)]
    exact_mod_cast Int.floor_natCast N
  have hm0 : truncQ ((files.map dur).sum) ≠ 0 := by
    rw [htr]
    exact_mod_cast Nat.pos_iff_ne_zero.mp hN0
  set e : ℤ := (truncQ (t - START_TIME)).fmod (truncQ ((files.map dur).sum)) with he
  have hfe : e = (truncQ (t - START_TIME)) % (truncQ ((files.map dur).sum)) := by
    rw [he]
    exact Int.fmod_eq_emod _ (by rw [htr]; positivity)
  have he0 : 0 ≤ e := by
    rw [hfe]
    exact Int.emod_nonneg _ hm0
  have helt : e < (N : ℤ) := by
    rw [hfe, ← htr]
    exact Int.emod_lt_of_pos _ (by rw [htr]; exact_mod_cast hN0)
  have heq0 : (0 : ℚ) ≤ (e : ℚ) := by exact_mod_cast he0
  have heqlt : (e : ℚ) < (files.map dur).sum := by
    rw [hN]
    exact_mod_cast helt
  obtain ⟨j, f, hj, hw1, hw2, hwalk⟩ :=
    walkAux_spec files dur t files 0 (e : ℚ) heq0 heqlt
  have hjmem : ∀ x ∈ (files.map dur).take j, ∃ n : ℕ, x = (n : ℚ) :=
    fun x hx => hmem x (List.take_subset j _ hx)
  obtain ⟨P, hP⟩ := natSum_of_mem _ hjmem
  have hps : priorSum (files.map dur) j = (P : ℚ) := hP
  have hfloor : ⌊(e : ℚ) - priorSum (files.map dur) j⌋ = e - (P : ℤ) := by
    rw [hps]
    have : ((e : ℚ)) - (P : ℚ) = (((e - (P : ℤ)) : ℤ) : ℚ) := by push_cast; ring
    rw [this, Int.floor_intCast]
  have hgnp : get_now_playing files dur t =
      some (walkAux files dur t files 0 (e : ℚ)) := by
    unfold get_now_playing
    rw [if_neg hne, if_neg hm0]
  refine ⟨j, f, e - (P : ℤ),
    (if 1 < files.length then files[(0 + j + 1) % files.length]? else some f),
    some (t + (dur f - ((e : ℚ) - priorSum (files.map dur) j))),
    hj, ?_, ?_, ?_, ?_, ?_⟩
  · rw [hgnp, hwalk, hfloor]
  · have : (P : ℚ) ≤ (e : ℚ) := by rw [← hps]; exact hw1
    have hPe : (P : ℤ) ≤ e := by exact_mod_cast this
    omega
  · push_cast
    rw [← hps]
    linarith [hw2]
  · rw [hps]
    push_cast
    ring
  · intro j' hj'
    have hwj : currentWindow (files.map dur) (e : ℚ) j := by
      constructor
      · exact hw1
      · have : (files.map dur).getD j 0 = dur f := by
          rw [List.getD_eq_getElem?_getD, List.getElem?_map, hj]
          rfl
        rw [this]
        exact hw2
    have hnn : ∀ d ∈ files.map dur, 0 ≤ d := by
      intro d hd
      obtain ⟨n, hn⟩ := hmem d hd
      rw [hn]; positivity
    exact currentWindow_unique _ hnn _ j' j hj' hwj

/-- Counterexample to claim C2 as stated: for the single-file playlist of
duration 1.5 s queried 1.2 s after the epoch, the reported offset is 0 and the
prior-durations-plus-offset sum is 0, but the specification's real-valued
`elapsed = (t - epoch) mod total` is 1.2, so the exactness equation fails. -/
theorem claimC2_cex : ¬ claimNowExact ["a"] cexDur (START_TIME + 6/5) := by
  rintro ⟨i, f, off, nxt, ns, hif, heq, h0, hlt, hsum, _⟩
  have hi0 : i = 0 := by
    rcases i with _ | n
    · rfl
    · simp at hif
  subst hi0
  simp only [List.getElem?_cons_zero, Option.some.injEq] at hif
  subst hif
  have hg : get_now_playing ["a"] cexDur (START_TIME + 6/5) =
      some (some "a", 0, some "a", some (START_TIME + 6/5 + 3/2)) := by
    have hf : Int.fmod 1 1 = 0 := by decide
    norm_num [get_now_playing, walkAux, truncQ, START_TIME, cexDur, hf]
  rw [hg] at heq
  simp only [Option.some.injEq, Prod.mk.injEq] at heq
  obtain ⟨-, hoff, -, -⟩ := heq
  rw [← hoff] at hsum
  norm_num [priorSum, qmod, cexDur] at hsum

/-- Witness for claim C2 (amended) at the concrete playlist `[A:600, B:900]`
and `t = START_TIME + 1400`. -/
theorem claimTwo_witness :
    ∃ i f off nxt ns,
      (["A", "B"])[i]? = some f ∧
      get_now_playing ["A", "B"] durAB (START_TIME + 1400) =
        some (some f, off, nxt, ns) ∧
      0 ≤ off ∧ (off : ℚ) < durAB f ∧
      priorSum (["A", "B"].map durAB) i + (off : ℚ) =
        (((truncQ (START_TIME + 1400 - START_TIME)).fmod
          (truncQ ((["A", "B"].map durAB).sum)) : ℤ) : ℚ) ∧
      ∀ j, currentWindow (["A", "B"].map durAB)
        (((truncQ (START_TIME + 1400 - START_TIME)).fmod
          (truncQ ((["A", "B"].map durAB).sum)) : ℤ) : ℚ) j → j = i :=
  nowPlaying_exact ["A", "B"] durAB (START_TIME + 1400) (by simp)
    (by
      intro f hf
      simp only [List.mem_cons, List.not_mem_nil, or_false] at hf
      rcases hf with rfl | rfl
      · exact ⟨600, by norm_num [durAB]⟩
      · exact ⟨900, by simp [durAB]⟩)
    (by simp [durAB]; norm_num)

theorem walkAux_components (files : List String) (dur : String → ℚ)
    (t₁ t₂ : ℚ) : ∀ (rest : List String) (k : Nat) (off : ℚ),
      (walkAux files dur t₁ rest k off).1 = (walkAux files dur t₂ rest k off).1 ∧
      (walkAux files dur t₁ rest k off).2.1 = (walkAux files dur t₂ rest k off).2.1 ∧
      (walkAux files dur t₁ rest k off).2.2.1 = (walkAux files dur t₂ rest k off).2.2.1
  | [], k, off => by simp [walkAux]
  | f :: rs, k, off => by
    by_cases hc : off < dur f
    · simp [walkAux, if_pos hc]
    · simp only [walkAux, if_neg hc]
      exact walkAux_components files dur t₁ t₂ rs (k + 1) (off - dur f)

/-- Claim C3 (amended): for a playlist whose total duration is a positive
whole number of seconds and a query instant at or after the reference
epoch, `get_now_playing` at `t` and at `t + total` agree on current file,
offset and next file. -/
theorem nowPlaying_periodic (files : List String) (dur : String → ℚ) (t : ℚ)
    (N : ℕ) (hsum : (files.map dur).sum = (N : ℚ)) (hN : 0 < N)
    (ht : START_TIME ≤ t) :
    sameShow (get_now_playing files dur t)
      (get_now_playing files dur (t + (files.map dur).sum)) := by
  by_cases hne : files = []
  · subst hne
    simp [get_now_playing, sameShow]
  · have htr : truncQ ((files.map dur).sum) = (N : ℤ) := by
      rw [hsum]
      unfold truncQ
      rw [if_pos (by positivity)]
      exact_mod_cast Int.floor_natCast N
    have hm0 : truncQ ((files.map dur).sum) ≠ 0 := by
      rw [htr]
      exact_mod_cast Nat.pos_iff_ne_zero.mp hN
    have hx : 0 ≤ t - START_TIME := by linarith
    have ht1 : truncQ (t - START_TIME) = ⌊t - START_TIME⌋ := if_pos hx
    have ht2 : truncQ (t + (files.map dur).sum - START_TIME) =
        ⌊t - START_TIME⌋ + (N : ℤ) := by
      have hx2 : 0 ≤ t + (files.map dur).sum - START_TIME := by
        rw [hsum]
        have : (0 : ℚ) ≤ (N : ℚ) := by positivity
        linarith
      have : t + (files.map dur).sum - START_TIME = (t - START_TIME) + (N : ℚ) := by
        rw [hsum]; ring
      rw [truncQ, if_pos hx2, this]
      exact_mod_cast Int.floor_add_nat (t - START_TIME) N
    have hemod : ((⌊t - START_TIME⌋ + (N : ℤ)).fmod (N : ℤ)) =
        ((⌊t - START_TIME⌋).fmod (N : ℤ)) := by
      have hNnn : (0 : ℤ) ≤ (N : ℤ) := by positivity
      rw [Int.fmod_eq_emod _ hNnn, Int.fmod_eq_emod _ hNnn]
      have hh := Int.add_mul_emod_self_left ⌊t - START_TIME⌋ ((N : ℤ)) 1
      rw [mul_one] at hh
      exact hh
    have hgoal := walkAux_components files dur t (t + (files.map dur).sum) files 0
      ((((⌊t - START_TIME⌋).fmod (N : ℤ)) : ℤ) : ℚ)
    unfold get_now_playing
    rw [if_neg hne, if_neg hne]
    simp only [hm0, if_neg hm0]
    rw [ht1, ht2, htr, hemod]
    rcases hw1 : walkAux files dur t files 0 ((((⌊t - START_TIME⌋).fmod (N : ℤ)) : ℤ) : ℚ)
      with ⟨a1, a2, a3, a4⟩
    rcases hw2 : walkAux files dur (t + (files.map dur).sum) files 0
      ((((⌊t - START_TIME⌋).fmod (N : ℤ)) : ℤ) : ℚ) with ⟨b1, b2, b3, b4⟩
    rw [hw1, hw2] at hgoal
    simp only [sameShow]
    exact ⟨hgoal.1, hgoal.2.1, hgoal.2.2⟩

/-- Counterexample to claim C3 as stated: for the playlist `[a:1.5s, b:2s]`
(total 3.5 s) queried 0.7 s after the epoch, the offset component changes from
0 to 1 between `t` and `t + total`, because the code truncates both the wall
clock and the total to integers. -/
theorem claimThree_cex :
    ¬ sameShow (get_now_playing ["a", "b"] cexDur (START_TIME + 7/10))
      (get_now_playing ["a", "b"] cexDur
        (START_TIME + 7/10 + (["a", "b"].map cexDur).sum)) := by
  have hba : ("b" : String) ≠ "a" := by decide
  have hsum : ((["a", "b"].map cexDur).sum) = 7/2 := by
    norm_num [cexDur, hba]
  have hf1 : Int.fmod 0 3 = 0 := by decide
  have hf2 : Int.fmod 4 3 = 1 := by decide
  have hg1 : get_now_playing ["a", "b"] cexDur (START_TIME + 7/10) =
      some (some "a", 0, some "b", some (START_TIME + 7/10 + 3/2)) := by
    norm_num [get_now_playing, walkAux, truncQ, START_TIME, cexDur, hba, hf1]
    decide
  have hg2 : get_now_playing ["a", "b"] cexDur
      (START_TIME + 7/10 + (["a", "b"].map cexDur).sum) =
      some (some "a", 1, some "b", some (START_TIME + 7/10 + 7/2 + 1/2)) := by
    rw [hsum]
    norm_num [get_now_playing, walkAux, truncQ, START_TIME, cexDur, hba, hf2]
    decide
  rw [hg1, hg2]
  simp only [sameShow]
  rintro ⟨-, h2, -⟩
  norm_num at h2

/-- Witness for claim C3 (amended) at the playlist `[A:600, B:900]` and
`t = START_TIME + 1400`. -/
theorem claimThree_witness :
    sameShow (get_now_playing ["A", "B"] durAB (START_TIME + 1400))
      (get_now_playing ["A", "B"] durAB
        (START_TIME + 1400 + (["A", "B"].map durAB).sum)) :=
  nowPlaying_periodic ["A", "B"] durAB (START_TIME + 1400) 1500
    (by simp [durAB]; norm_num) (by norm_num) (by norm_num [START_TIME])

/-- Claim C1 (code behaviour at the failing input): on a non-empty playlist
whose only duration resolves to 0, `get_now_playing` reaches
`elapsed %= int(total)` with `int(total) = 0` and raises `ZeroDivisionError`
(modelled as `none`) instead of returning the nothing-playing tuple the
specification prescribes. -/
theorem nowPlaying_zero_total_raises :
    get_now_playing ["a.mp4"] (fun _ => 0) (START_TIME + 100) = none := by
  norm_num [get_now_playing, truncQ]

/-- Claim C4: for the playlist `[A:600s, B:900s]` queried at
`t = START_TIME + 1400`, `get_now_playing` reports current = B, offset = 800,
next = A, and a next-start instant of `t + 100`. -/
theorem nowPlaying_scenario :
    get_now_playing ["A", "B"] durAB (START_TIME + 1400) =
      some (some "B", 800, some "A", some (START_TIME + 1400 + 100)) := by
  have hba : ("B" : String) ≠ "A" := by decide
  have hf : Int.fmod 1400 1500 = 1400 := by decide
  norm_num [get_now_playing, walkAux, truncQ, START_TIME, durAB, hba, hf]
  decide

/-- Claim C5: `stable_shuffle` is a pure function of the seed stream and the
input list — identical inputs give identical outputs — and its output is a
permutation of the input. -/
theorem shuffle_deterministic_perm (seedGen : String → Nat → Nat)
    (seed : String) (files₁ files₂ : List String) (h : files₁ = files₂) :
    stable_shuffle seedGen files₁ seed = stable_shuffle seedGen files₂ seed ∧
    (stable_shuffle seedGen files₁ seed).Perm files₁ :=
  ⟨by rw [h], stable_shuffle_perm seedGen files₁ seed⟩

/-- Witness for claim C5 at a concrete generator, seed and list. -/
theorem shuffle_deterministic_perm_witness :
    stable_shuffle (fun _ _ => 0) ["a", "b"] "ch" =
      stable_shuffle (fun _ _ => 0) ["a", "b"] "ch" ∧
    (stable_shuffle (fun _ _ => 0) ["a", "b"] "ch").Perm ["a", "b"] :=
  shuffle_deterministic_perm (fun _ _ => 0) "ch" ["a", "b"] ["a", "b"] rfl

/-- Claim C6: with filler explicitly disabled (`commercials = false`),
`build_playlist` returns exactly the ordered main-file list — the seeded
stable shuffle when rotation is `"random"`, the lexicographic sort
otherwise — with nothing added or removed. -/
theorem build_no_filler (seedGen : String → Nat → Nat)
    (commercialsDir : Option (List String)) (rnd : Nat → Nat × List String)
    (ch : Channel) (scanned : List String) (h : ch.commercials = some false) :
    build_playlist seedGen commercialsDir rnd ch scanned =
      if ch.rotation = some "random" then stable_shuffle seedGen scanned ch.id
      else sortStrings scanned := by
  simp [build_playlist, orderedFiles, h]

/-- Witness for claim C6 at a concrete channel with `commercials = false`. -/
theorem build_no_filler_witness :
    build_playlist (fun _ _ => 0) none (fun _ => (0, []))
      ⟨"c", none, some false⟩ ["b", "a"] =
      if (⟨"c", none, some false⟩ : Channel).rotation = some "random" then
        stable_shuffle (fun _ _ => 0) ["b", "a"] (⟨"c", none, some false⟩ : Channel).id
      else sortStrings ["b", "a"] :=
  build_no_filler (fun _ _ => 0) none (fun _ => (0, []))
    ⟨"c", none, some false⟩ ["b", "a"] rfl

/-- Claim C10: a channel configuration that omits the `commercials` flag
builds exactly as if the flag were explicitly `true`
(`channel.get("commercials", True)`). -/
theorem build_default_filler (seedGen : String → Nat → Nat)
    (commercialsDir : Option (List String)) (rnd : Nat → Nat × List String)
    (id : String) (rot : Option String) (scanned : List String) :
    build_playlist seedGen commercialsDir rnd ⟨id, rot, none⟩ scanned =
      build_playlist seedGen commercialsDir rnd ⟨id, rot, some true⟩ scanned := rfl

/-- Claim C8: the duration resolver is total; on any probe failure (tool
missing, error, unparsable output) it returns the fixed fallback
`22 * 60 = 1320` seconds, and on a parsable number it returns that value. -/
theorem get_duration_fallback :
    get_duration none = 1320 ∧ ∀ v : ℚ, get_duration (some v) = v := by
  constructor
  · norm_num [get_duration]
  · intro v
    rfl

theorem orderedFiles_nil (seedGen : String → Nat → Nat) (ch : Channel) :
    orderedFiles seedGen ch [] = [] := by
  unfold orderedFiles
  by_cases h : ch.rotation = some "random" <;>
    simp [h, stable_shuffle, fisherYates, fyGo, sortStrings]

/-- Claim C9: a missing source folder or one with no whitelisted video files
scans to an empty list without failing, an empty scan builds an empty playlist
for every filler configuration, and `get_now_playing` on an empty playlist
reports the nothing-playing tuple rather than an error. -/
theorem scan_empty_safe (path : String) (entries : List String)
    (dur : String → ℚ) (t : ℚ)
    (h : ∀ f ∈ entries, hasValidExt f = false) :
    get_channel_files none path = [] ∧
    get_channel_files (some entries) path = [] ∧
    (∀ seedGen commercialsDir rnd ch,
      build_playlist seedGen commercialsDir rnd ch [] = []) ∧
    get_now_playing [] dur t = some (none, 0, none, none) := by
  refine ⟨rfl, ?_, ?_, rfl⟩
  · show ((sortStrings entries).filter (fun f => hasValidExt f)).map
        (fun f => pathJoin path (strTrim f)) = []
    have hnil : (sortStrings entries).filter (fun f => hasValidExt f) = [] := by
      rw [List.filter_eq_nil_iff]
      intro a ha
      have hmem : a ∈ entries :=
        (List.mergeSort_perm entries (fun a b => a ≤ b)).mem_iff.mp ha
      simp [h a hmem]
    rw [hnil]
    rfl
  · intro seedGen commercialsDir rnd ch
    unfold build_playlist
    rw [orderedFiles_nil]
    by_cases hc : ch.commercials.getD true <;> simp [hc, interleave]

/-- Witness for claim C9 at a folder containing only `notes.txt`. -/
theorem scan_empty_safe_witness :
    (∀ f ∈ ["notes.txt"], hasValidExt f = false) ∧
    (get_channel_files none "media/x" = [] ∧
     get_channel_files (some ["notes.txt"]) "media/x" = [] ∧
     (∀ seedGen commercialsDir rnd ch,
       build_playlist seedGen commercialsDir rnd ch [] = []) ∧
     get_now_playing [] (fun _ => 1) 0 = some (none, 0, none, none)) :=
  ⟨by decide, scan_empty_safe "media/x" ["notes.txt"] (fun _ => 1) 0 (by decide)⟩

theorem interleave_sublist (pool : List String) :
    ∀ (files : List String) (rnd : Nat → Nat × List String),
      files.Sublist (interleave pool files rnd)
  | [], _ => List.Sublist.refl []
  | ep :: rest, rnd => by
    simp only [interleave]
    refine List.Sublist.cons₂ ep ?_
    exact (interleave_sublist pool rest (fun n => rnd (n + 1))).trans
      (List.sublist_append_right _ _)

theorem interleave_length_le (pool : List String) :
    ∀ (files : List String) (rnd : Nat → Nat × List String),
      (∀ k, (rnd k).2.length ≤ 2) →
      (interleave pool files rnd).length ≤ 3 * files.length
  | [], _, _ => by simp [interleave]
  | ep :: rest, rnd, h => by
    have hrec := interleave_length_le pool rest (fun n => rnd (n + 1))
      (fun k => h (k + 1))
    have hads : (if pool.isEmpty then [] else (rnd 0).2).length ≤ 2 := by
      by_cases hp : pool.isEmpty <;> simp [hp, h 0]
    simp only [interleave, List.length_cons, List.length_append]
    omega

theorem interleave_mem (pool : List String) :
    ∀ (files : List String) (rnd : Nat → Nat × List String),
      (∀ k, ∀ a ∈ (rnd k).2, a ∈ pool) →
      ∀ x ∈ interleave pool files rnd, x ∈ files ∨ x ∈ pool
  | [], _, _, x, hx => by simp [interleave] at hx
  | ep :: rest, rnd, h, x, hx => by
    simp only [interleave, List.mem_cons, List.mem_append] at hx
    rcases hx with rfl | hads | hrec
    · exact Or.inl (by simp)
    · refine Or.inr ?_
      rcases hp : pool.isEmpty with _ | _
      · rw [hp] at hads
        simp at hads
        exact h 0 x hads
      · rw [hp] at hads
        simp at hads
    · rcases interleave_mem pool rest (fun n => rnd (n + 1))
        (fun k => h (k + 1)) x hrec with hl | hr
      · exact Or.inl (by simp [hl])
      · exact Or.inr hr

theorem orderedFiles_length (seedGen : String → Nat → Nat) (ch : Channel)
    (scanned : List String) :
    (orderedFiles seedGen ch scanned).length = scanned.length := by
  unfold orderedFiles
  by_cases h : ch.rotation = some "random"
  · simp only [h, if_pos]
    exact (stable_shuffle_perm seedGen scanned ch.id).length_eq
  · simp only [h, if_neg, ite_false]
    exact List.length_mergeSort scanned

/-- Claim C7: with filler enabled and a non-empty pool, for every outcome of
the unseeded random draws the built playlist keeps the ordered main entries as
a subsequence (their relative order preserved), has length between
`mainCount` and `3 * mainCount`, and contains only main entries and pool
clips. -/
theorem build_with_filler_bounds (seedGen : String → Nat → Nat)
    (commercialsDir : Option (List String)) (rnd : Nat → Nat × List String)
    (ch : Channel) (scanned : List String)
    (hon : ch.commercials.getD true = true)
    (_hpool : commercialPool commercialsDir ≠ [])
    (hvalid : ∀ k, ValidChoice (commercialPool commercialsDir) (rnd k)) :
    (orderedFiles seedGen ch scanned).Sublist
      (build_playlist seedGen commercialsDir rnd ch scanned) ∧
    scanned.length ≤ (build_playlist seedGen commercialsDir rnd ch scanned).length ∧
    (build_playlist seedGen commercialsDir rnd ch scanned).length ≤
      3 * scanned.length ∧
    ∀ x ∈ build_playlist seedGen commercialsDir rnd ch scanned,
      x ∈ orderedFiles seedGen ch scanned ∨ x ∈ commercialPool commercialsDir := by
  have hb : build_playlist seedGen commercialsDir rnd ch scanned =
      interleave (commercialPool commercialsDir)
        (orderedFiles seedGen ch scanned) rnd := by
    unfold build_playlist
    rw [hon]
    simp
  have hsub := interleave_sublist (commercialPool commercialsDir)
    (orderedFiles seedGen ch scanned) rnd
  have hlen := orderedFiles_length seedGen ch scanned
  refine ⟨by rw [hb]; exact hsub, ?_, ?_, ?_⟩
  · rw [hb, ← hlen]
    exact hsub.length_le
  · rw [hb, ← hlen]
    exact interleave_length_le _ _ rnd
      (fun k => by
        have h1 := (hvalid k).2.1
        have h2 := (hvalid k).1
        omega)
  · rw [hb]
    exact interleave_mem _ _ rnd (fun k => (hvalid k).2.2.2)

/-- Witness for claim C7 at a one-episode channel with a one-clip pool. -/
theorem build_with_filler_bounds_witness :
    ((⟨"c", none, none⟩ : Channel).commercials.getD true = true ∧
     commercialPool (some ["ad1.mp4"]) ≠ [] ∧
     (∀ k : Nat, ValidChoice (commercialPool (some ["ad1.mp4"]))
       ((fun _ => (1, ["media/commercials/ad1.mp4"])) k))) ∧
    ((orderedFiles (fun _ _ => 0) ⟨"c", none, none⟩ ["e1.mp4"]).Sublist
      (build_playlist (fun _ _ => 0) (some ["ad1.mp4"])
        (fun _ => (1, ["media/commercials/ad1.mp4"])) ⟨"c", none, none⟩ ["e1.mp4"]) ∧
     (["e1.mp4"] : List String).length ≤
       (build_playlist (fun _ _ => 0) (some ["ad1.mp4"])
         (fun _ => (1, ["media/commercials/ad1.mp4"])) ⟨"c", none, none⟩ ["e1.mp4"]).length ∧
     (build_playlist (fun _ _ => 0) (some ["ad1.mp4"])
       (fun _ => (1, ["media/commercials/ad1.mp4"])) ⟨"c", none, none⟩ ["e1.mp4"]).length ≤
       3 * (["e1.mp4"] : List String).length ∧
     ∀ x ∈ build_playlist (fun _ _ => 0) (some ["ad1.mp4"])
         (fun _ => (1, ["media/commercials/ad1.mp4"])) ⟨"c", none, none⟩ ["e1.mp4"],
       x ∈ orderedFiles (fun _ _ => 0) ⟨"c", none, none⟩ ["e1.mp4"] ∨
       x ∈ commercialPool (some ["ad1.mp4"])) := by
  have hpool : commercialPool (some ["ad1.mp4"]) =
      ["media/commercials/ad1.mp4"] := by decide
  have hv : ValidChoice (commercialPool (some ["ad1.mp4"]))
      (1, ["media/commercials/ad1.mp4"]) := by
    rw [hpool]
    exact ⟨by decide, by decide, by decide, by decide⟩
  refine ⟨⟨rfl, ?_, fun k => hv⟩, ?_⟩
  · rw [hpool]
    decide
  · exact build_with_filler_bounds (fun _ _ => 0) (some ["ad1.mp4"])
      (fun _ => (1, ["media/commercials/ad1.mp4"])) ⟨"c", none, none⟩ ["e1.mp4"]
      rfl (by rw [hpool]; decide) (fun k => hv)
